import Mathlib

/-!
Verification development for the RStudio notebook execution queue
(`src/cpp/session/modules/rmarkdown/NotebookQueue.cpp`).

The queue sequences execution of notebook code chunks against a single
shared R console.  The translation below is a shallow embedding of the
`NotebookQueue` class and its top-level RPC/event handlers.  Classes that
live in other translation units (`NotebookDocQueue`, `NotebookQueueUnit`,
`ChunkExecContext`) are modelled from the specification, as noted on each
definition.  Side effects (client events, console-input enqueues) are
collected in an output list; the result of an R error return is carried
as an `Option String`.
-/

namespace RmdNotebook

/-- Modelled from the spec: an `ExecRange` is a contiguous span
(start offset, length) of unexecuted source within a chunk
(`NotebookQueueUnit.hpp` is not part of the sources). -/
structure ExecRange where
  start : Nat
  length : Nat
deriving DecidableEq, Repr

/-- Modelled from the spec: the `QueueOperation` enum from
`NotebookQueue.hpp` (not part of the sources), a closed set of
structural edits {insert-before, update-in-place, delete}. -/
inductive QueueOperation where
  | queueAdd
  | queueUpdate
  | queueDelete
deriving DecidableEq, Repr

/-- Modelled from the spec: the `static_cast<QueueOperation>(op)` used by
`updateExecQueue` on the integer RPC parameter. -/
def QueueOperation.ofOpCode : Nat → QueueOperation
  | 0 => .queueAdd
  | 1 => .queueUpdate
  | _ => .queueDelete

instance {ε α : Type} [DecidableEq ε] [DecidableEq α] :
    DecidableEq (Except ε α) := fun a b =>
  match a, b with
  | .ok x, .ok y =>
      if h : x = y then .isTrue (by rw [h]) else .isFalse (by simp [h])
  | .error x, .error y =>
      if h : x = y then .isTrue (by rw [h]) else .isFalse (by simp [h])
  | .ok _, .error _ => .isFalse (by simp)
  | .error _, .ok _ => .isFalse (by simp)

/-- Modelled from the spec: a `NotebookQueueUnit` is one chunk's remaining
execution ranges plus its (possibly malformed) execution options; identity
is (documentId, chunkId).  `optionsResult` stands for what
`parseOptions` would produce for this unit; `finishedLast` records whether
the console has signaled evaluation-finished for the last submitted range
(the completion flag of section 4.5 of the spec). -/
structure NotebookQueueUnit where
  docId : String
  chunkId : String
  ranges : List ExecRange
  finishedLast : Bool
  optionsResult : Except String String
deriving DecidableEq, Repr

/-- Modelled from the spec: `NotebookQueueUnit::parseOptions` — parsing the
unit's execution options either yields the parsed options or an error. -/
def NotebookQueueUnit.parseOptions (u : NotebookQueueUnit) : Except String String :=
  u.optionsResult

/-- Modelled from the spec (section 4.5): a unit is complete when its range
sequence is exhausted AND the console has signaled evaluation-finished for
the last submitted range; range exhaustion alone is not sufficient. -/
def NotebookQueueUnit.complete (u : NotebookQueueUnit) : Bool :=
  u.ranges.isEmpty && u.finishedLast

/-- Modelled from the spec (section 4.3): `NotebookQueueUnit::popExecRange`
pops the next pending range (or yields a zero-length sentinel range when no
source remains); a fresh submission means the console has not yet finished
evaluating it, so the completion flag is cleared. -/
def NotebookQueueUnit.popExecRange (u : NotebookQueueUnit) :
    NotebookQueueUnit × ExecRange :=
  match u.ranges with
  | [] => ({ u with finishedLast := false }, ⟨0, 0⟩)
  | r :: rs => ({ u with ranges := rs, finishedLast := false }, r)

/-- Modelled from the spec: a `NotebookDocQueue` is the ordered pending-unit
list for one document, plus the rendering parameters threaded into the
execution context. -/
structure NotebookDocQueue where
  docId : String
  units : List NotebookQueueUnit
  pixelWidth : Nat
  charWidth : Nat
deriving DecidableEq, Repr

/-- Modelled from the spec: a document queue is complete when its unit
sequence is empty. -/
def NotebookDocQueue.complete (q : NotebookDocQueue) : Bool :=
  q.units.isEmpty

/-- Modelled from the spec: `NotebookDocQueue::firstUnit` returns the first
queued unit (callers only use it on a non-complete queue). -/
def NotebookDocQueue.firstUnit (q : NotebookDocQueue) : Option NotebookQueueUnit :=
  q.units.head?

/-- Modelled from the spec: insert a unit before the unit whose chunkId is
`before`, or append when no such unit exists. -/
def insertBeforeChunk (u : NotebookQueueUnit) (before : String) :
    List NotebookQueueUnit → List NotebookQueueUnit
  | [] => [u]
  | v :: vs =>
      if v.chunkId == before then u :: v :: vs
      else v :: insertBeforeChunk u before vs

/-- Modelled from the spec (section 4.6): `NotebookDocQueue::update` applies
one structural edit — insert-before, update-in-place (by unit identity
(docId, chunkId)), or delete. -/
def NotebookDocQueue.update (q : NotebookDocQueue) (u : NotebookQueueUnit)
    (op : QueueOperation) (before : String) : NotebookDocQueue :=
  match op with
  | .queueAdd => { q with units := insertBeforeChunk u before q.units }
  | .queueUpdate =>
      { q with units := q.units.map fun v =>
          if v.docId == u.docId && v.chunkId == u.chunkId then u else v }
  | .queueDelete =>
      { q with units := q.units.filter fun v =>
          !(v.docId == u.docId && v.chunkId == u.chunkId) }

/-- Modelled from the spec: the per-unit `ChunkExecContext`, bound to
(docId, chunkId, options, rendering parameters); `connected` tracks the
connect/disconnect lifecycle of its console-event handle. -/
structure ChunkExecContext where
  docId : String
  chunkId : String
  options : String
  pixelWidth : Nat
  charWidth : Nat
  connected : Bool
deriving DecidableEq, Repr

/-- Modelled from the spec: `ChunkExecContext::disconnect` releases the
context's handle on console lifecycle events. -/
def ChunkExecContext.disconnect (c : ChunkExecContext) : ChunkExecContext :=
  { c with connected := false }

/-- The `ChunkExecState` enum of NotebookQueue.cpp. -/
inductive ChunkExecState where
  | chunkExecStarted
  | chunkExecFinished
deriving DecidableEq, Repr

/-- Observable side effects of the queue: client events
(`kChunkExecStateChanged` with started/finished, `kNotebookRangeExecuted`)
and console-input submissions handed to the input thread via
`input_.enque`. -/
inductive Output where
  | execStateChanged (state : ChunkExecState) (docId chunkId : String)
  | rangeExecuted (docId chunkId : String) (range : ExecRange)
  | consoleInput (docId chunkId : String) (range : ExecRange)
deriving DecidableEq, Repr

/-- The `NotebookQueue` class state: the list of document queues, the
currently executing unit and its execution context (each a single
nullable slot, as in the C++ `boost::shared_ptr` members). -/
structure NotebookQueue where
  clientId : String
  queue : List NotebookDocQueue
  execUnit : Option NotebookQueueUnit
  execContext : Option ChunkExecContext
deriving DecidableEq, Repr

/-- Result of one member-function call: the possible `Error` return, the
state after the call, and the outputs emitted during it. -/
structure PRes where
  err : Option String
  state : NotebookQueue
  out : List Output
deriving DecidableEq, Repr

/-- `NotebookQueue::complete`: the queue is complete when its document list
is empty. -/
def NotebookQueue.complete (st : NotebookQueue) : Bool :=
  st.queue.isEmpty

/-- `NotebookQueue::add`: append a document queue. -/
def NotebookQueue.add (st : NotebookQueue) (pQueue : NotebookDocQueue) :
    NotebookQueue :=
  { st with queue := st.queue ++ [pQueue] }

/-- `NotebookQueue::executeCurrentUnit`: pop the next exec range from the
current unit, enqueue the console input for the helper thread, and emit the
`kNotebookRangeExecuted` client event.  Always returns `Success()`. -/
def NotebookQueue.executeCurrentUnit (st : NotebookQueue) : PRes :=
  match st.execUnit with
  | none => ⟨none, st, []⟩
  | some u =>
      let p := u.popExecRange
      ⟨none, { st with execUnit := some p.1 },
        [Output.consoleInput u.docId u.chunkId p.2,
         Output.rangeExecuted u.docId u.chunkId p.2]⟩

/-- `NotebookQueue::executeNextUnit`: if the document list is non-empty and
its first document queue is not complete, take that queue's first unit,
parse its options (returning the error on failure), construct and connect a
`ChunkExecContext`, set the unit as currently executing, emit the
chunk-started event, and immediately execute the current unit once. -/
def NotebookQueue.executeNextUnit (st : NotebookQueue) : PRes :=
  match st.queue with
  | [] => ⟨none, st, []⟩
  | docQueue :: _ =>
      if docQueue.complete then ⟨none, st, []⟩
      else
        match docQueue.units with
        | [] => ⟨none, st, []⟩
        | unit :: _ =>
            match unit.parseOptions with
            | .error e => ⟨some e, st, []⟩
            | .ok opts =>
                let ctx : ChunkExecContext :=
                  ⟨unit.docId, unit.chunkId, opts,
                   docQueue.pixelWidth, docQueue.charWidth, true⟩
                let st2 := { st with execContext := some ctx,
                                     execUnit := some unit }
                let r := st2.executeCurrentUnit
                ⟨none, r.state,
                 Output.execStateChanged .chunkExecStarted unit.docId unit.chunkId
                   :: r.out⟩

/-- `NotebookQueue::process`, driven by the console-prompt signal.  `rBusy`
models `r::getGlobalContext()->nextcontext != NULL` (R currently executing
code).  Empty queue or busy R: no-op.  A complete current unit is deleted
from the front document queue (popping that queue if it becomes complete),
the chunk-finished event is emitted, the context disconnected and the slot
cleared; an incomplete current unit is re-submitted; then (when no unit was
executing or one was just retired) the next unit is selected. -/
def NotebookQueue.process (rBusy : Bool) (st : NotebookQueue) : PRes :=
  if st.queue.isEmpty then ⟨none, st, []⟩
  else if rBusy then ⟨none, st, []⟩
  else
    match st.execUnit with
    | some u =>
        if u.complete then
          let st1 :=
            match st.queue with
            | [] => st
            | docQueue :: rest =>
                let dq2 := docQueue.update u .queueDelete ""
                if dq2.complete then { st with queue := rest }
                else { st with queue := dq2 :: rest }
          let st2 := { st1 with
                        execContext := st1.execContext.map ChunkExecContext.disconnect,
                        execUnit := none }
          let r := st2.executeNextUnit
          ⟨r.err, r.state,
           Output.execStateChanged .chunkExecFinished u.docId u.chunkId :: r.out⟩
        else st.executeCurrentUnit
    | none => st.executeNextUnit

/-- `NotebookQueue::update`: find the first document queue whose docId
matches the unit's and delegate the structural edit to it (the
`BOOST_FOREACH` loop breaks at the first match); always returns
`Success()`. -/
def updateQueueList (pUnit : NotebookQueueUnit) (op : QueueOperation)
    (before : String) : List NotebookDocQueue → List NotebookDocQueue
  | [] => []
  | q :: rest =>
      if q.docId == pUnit.docId then q.update pUnit op before :: rest
      else q :: updateQueueList pUnit op before rest

/-- `NotebookQueue::update` as a state transformer (the member always
returns `Success()`). -/
def NotebookQueue.update (st : NotebookQueue) (pUnit : NotebookQueueUnit)
    (op : QueueOperation) (before : String) : NotebookQueue :=
  { st with queue := updateQueueList pUnit op before st.queue }

/-- Modelled from the spec (sections 4.5 and 6): the console's
evaluation-finished lifecycle event for the last submitted range, observed
by the execution context, which flips the current unit's completion flag. -/
def NotebookQueue.consoleFinish (st : NotebookQueue) : NotebookQueue :=
  { st with execUnit := st.execUnit.map fun u => { u with finishedLast := true } }

/-- The `update_notebook_exec_queue` RPC request, with the results of the
two fallible parse stages supplied as oracles: `readParams` stands for
`json::readParams(request.params, &unitJson, &op, &before)` (yielding the
op code and the before-anchor; the unit JSON itself stays opaque), and
`unitFromJson` for `NotebookQueueUnit::fromJson(unitJson, &pUnit)`, which
is modelled from the spec since `NotebookQueueUnit.cpp` is not among the
sources. -/
structure UpdateRequest where
  readParams : Except String (Nat × String)
  unitFromJson : Except String NotebookQueueUnit

/-- The `execute_notebook_chunks` RPC request.  `docFromJson` stands for
`NotebookDocQueue::fromJson(docObj, &pQueue)`, modelled from the spec
(`NotebookDocQueue.cpp` is not among the sources; note the source computes
but never checks the `json::readParams` error for this request — only the
`fromJson` error is checked). -/
structure ExecChunksRequest where
  clientId : String
  docFromJson : Except String NotebookDocQueue

/-- Result of a top-level handler: the `Error` return, the session-wide
`s_queue` state after the call, and the outputs emitted. -/
structure RpcRes where
  err : Option String
  state : Option NotebookQueue
  out : List Output
deriving DecidableEq, Repr

/-- `updateExecQueue`: propagate either parse error; if `s_queue` is null
return `Success()`; otherwise delegate to `NotebookQueue::update` with the
op code cast to a `QueueOperation`. -/
def updateExecQueue (req : UpdateRequest) (s : Option NotebookQueue) : RpcRes :=
  match req.readParams with
  | .error e => ⟨some e, s, []⟩
  | .ok (op, before) =>
      match req.unitFromJson with
      | .error e => ⟨some e, s, []⟩
      | .ok pUnit =>
          match s with
          | none => ⟨none, none, []⟩
          | some q =>
              ⟨none, some (q.update pUnit (QueueOperation.ofOpCode op) before), []⟩

/-- `executeNotebookChunks`: propagate the document-conversion error;
otherwise create the global queue if absent (with the request's client id),
append the new document queue, and process immediately (the `process`
error return is discarded by the source). -/
def executeNotebookChunks (req : ExecChunksRequest) (rBusy : Bool)
    (s : Option NotebookQueue) : RpcRes :=
  match req.docFromJson with
  | .error e => ⟨some e, s, []⟩
  | .ok pQueue =>
      let q0 := match s with
                | none => NotebookQueue.mk req.clientId [] none none
                | some q => q
      let q1 := q0.add pQueue
      let r := q1.process rBusy
      ⟨none, some r.state, r.out⟩

/-- The top-level `onConsolePrompt` handler: drive `process` on the global
queue if one exists (via `NotebookQueue::onConsolePrompt`, which discards
the error), then reset the global queue if it reports complete. -/
def onConsolePromptTop (rBusy : Bool) (s : Option NotebookQueue) :
    Option NotebookQueue × List Output :=
  match s with
  | none => (none, [])
  | some q =>
      let r := q.process rBusy
      if r.state.complete then (none, r.out) else (some r.state, r.out)

/-- One external stimulus of the session: a console prompt (idle) signal
with the given R-busy status, a mutation RPC, a chunk-execution RPC, or the
console's evaluation-finished event for the in-flight range (modelled from
the spec, sections 4.5 and 6). -/
inductive Action where
  | prompt (rBusy : Bool)
  | updateReq (req : UpdateRequest)
  | execChunks (req : ExecChunksRequest) (rBusy : Bool)
  | consoleFinish

/-- Apply one external stimulus to the session-wide state. -/
def stepAction (s : Option NotebookQueue) : Action → Option NotebookQueue × List Output
  | .prompt rBusy => onConsolePromptTop rBusy s
  | .updateReq req =>
      let r := updateExecQueue req s
      (r.state, r.out)
  | .execChunks req rBusy =>
      let r := executeNotebookChunks req rBusy s
      (r.state, r.out)
  | .consoleFinish => (s.map NotebookQueue.consoleFinish, [])

/-- Run a sequence of external stimuli, accumulating the emitted outputs. -/
def runActions (s : Option NotebookQueue) : List Action → Option NotebookQueue × List Output
  | [] => (s, [])
  | a :: as' =>
      let r := stepAction s a
      let rs := runActions r.1 as'
      (rs.1, r.2 ++ rs.2)

/-- The identity of a unit: (documentId, chunkId). -/
def unitKey (u : NotebookQueueUnit) : String × String :=
  (u.docId, u.chunkId)

/-- The identities of a document queue's units, in queue order. -/
def docKeys (q : NotebookDocQueue) : List (String × String) :=
  q.units.map unitKey

/-- The identities of all queued units across a list of document queues, in
document order then unit order. -/
def queueKeys (qs : List NotebookDocQueue) : List (String × String) :=
  qs.flatMap docKeys

/-- The identities carried by the chunk-started events of an output trace,
in emission order. -/
def startedKeys (outs : List Output) : List (String × String) :=
  outs.filterMap fun o =>
    match o with
    | .execStateChanged .chunkExecStarted d c => some (d, c)
    | _ => none

/-- An advance-phase stimulus: a console prompt (idle signal) with the given
R-busy status, or the console's evaluation-finished event — no mutation
requests. -/
inductive AdvanceEvt where
  | prompt (rBusy : Bool)
  | consoleFinish

/-- Apply one advance-phase stimulus to the queue. -/
def stepAdvance (s : NotebookQueue) : AdvanceEvt → NotebookQueue × List Output
  | .prompt rBusy =>
      let r := s.process rBusy
      (r.state, r.out)
  | .consoleFinish => (s.consoleFinish, [])

/-- Run a sequence of advance-phase stimuli, accumulating outputs. -/
def runAdvance (s : NotebookQueue) : List AdvanceEvt → NotebookQueue × List Output
  | [] => (s, [])
  | e :: es =>
      let r := stepAdvance s e
      let rs := runAdvance r.1 es
      (rs.1, r.2 ++ rs.2)

/-- Iterate `process` with a fixed R-busy status, accumulating outputs and
keeping the last error. -/
def processIter (rBusy : Bool) (st : NotebookQueue) : Nat → PRes
  | 0 => ⟨none, st, []⟩
  | n + 1 =>
      let r := st.process rBusy
      let rs := processIter rBusy r.state n
      ⟨rs.err, rs.state, r.out ++ rs.out⟩

/-- How many units occupy the currently-executing slot: the slot is a
single nullable pointer, so this is 0 or 1. -/
def execSlotCount (s : Option NotebookQueue) : Nat :=
  match s with
  | none => 0
  | some q => match q.execUnit with | none => 0 | some _ => 1

/-- The invariant needed for execution-order reasoning: the unit keys of
every queued document queue are pairwise distinct (the spec's DocumentQueue
invariant: no duplicate chunkId within one document). -/
def QueueNodup (s : NotebookQueue) : Prop :=
  ∀ dq ∈ s.queue, (docKeys dq).Nodup

/-- The structural invariant of the advance loop: the currently-executing
unit, when present, has the identity of the first unit of the first
document queue. -/
def ExecHeadOk (s : NotebookQueue) : Prop :=
  ∀ u, s.execUnit = some u →
    ∃ dq rest, s.queue = dq :: rest ∧
      ∃ v vs, dq.units = v :: vs ∧ unitKey v = unitKey u

/-- The unit keys not yet begun: all queued keys, minus the head key when a
unit is currently executing (that one has already started). -/
def pendingKeys (s : NotebookQueue) : List (String × String) :=
  match s.execUnit with
  | none => queueKeys s.queue
  | some _ => (queueKeys s.queue).tail

/-- Combined invariant for the execution-order proof: per-document key
distinctness, the executing unit sits at the head of the queue, and the
keys started so far (`done`) followed by the keys still pending make up the
originally queued keys in order. -/
def OrderInv (s : NotebookQueue) (done orig : List (String × String)) : Prop :=
  QueueNodup s ∧ ExecHeadOk s ∧ done ++ pendingKeys s = orig

/-- Concrete scenario: a chunk with two pending ranges. -/
def cRange1 : ExecRange := ⟨0, 5⟩

/-- Concrete scenario: second pending range. -/
def cRange2 : ExecRange := ⟨5, 7⟩

/-- Concrete scenario: unit c1 of document A with two pending ranges. -/
def cUnitA1 : NotebookQueueUnit := ⟨"A", "c1", [cRange1, cRange2], false, .ok "opts"⟩

/-- Concrete scenario: document queue for A holding c1. -/
def cDocA : NotebookDocQueue := ⟨"A", [cUnitA1], 640, 80⟩

/-- Concrete scenario: the mutation payload that deletes unit ("A", "c1"). -/
def cDelA1 : NotebookQueueUnit := ⟨"A", "c1", [], false, .ok ""⟩

/-- Concrete scenario: start document A, then delete the currently
executing unit c1 mid-flight, then keep driving the queue. -/
def cDeleteActs : List Action :=
  [ .execChunks ⟨"client", .ok cDocA⟩ false,
    .updateReq ⟨.ok (2, ""), .ok cDelA1⟩ ]

/-- Concrete scenario: an empty (hence complete) document queue. -/
def cDocEmpty : NotebookDocQueue := ⟨"E", [], 640, 80⟩

/-- Concrete scenario: unit c2 of document B with one pending range. -/
def cUnitB1 : NotebookQueueUnit := ⟨"B", "c2", [cRange1], false, .ok "opts"⟩

/-- Concrete scenario: document queue for B holding c2. -/
def cDocB : NotebookDocQueue := ⟨"B", [cUnitB1], 640, 80⟩

/-- Concrete scenario: the state with a complete document queue in front of
a non-complete one and no unit executing. -/
def cStuckState : NotebookQueue := ⟨"client", [cDocEmpty, cDocB], none, none⟩

/-- Concrete scenario: unit c1 of document A with all ranges submitted and
the console finished with the last one. -/
def cDoneUnit : NotebookQueueUnit := ⟨"A", "c1", [], true, .ok "opts"⟩

/-- Concrete scenario: unit c3 of document C whose options are malformed. -/
def cBadUnit : NotebookQueueUnit := ⟨"C", "c3", [cRange1], false, .error "bad options"⟩

/-- Concrete scenario: document queue for C holding the malformed unit. -/
def cDocC : NotebookDocQueue := ⟨"C", [cBadUnit], 640, 80⟩

/-- Concrete scenario: state about to select the malformed unit. -/
def cBadState : NotebookQueue := ⟨"client", [cDocC], none, none⟩

/-- Concrete scenario: state whose executing unit has satisfied the
completion predicate. -/
def cDoneState : NotebookQueue :=
  ⟨"client", [⟨"A", [cDoneUnit], 640, 80⟩], some cDoneUnit,
   some ⟨"A", "c1", "opts", 640, 80, true⟩⟩

/-- Concrete scenario: unit c1 of document A mid-execution (first range
already submitted, one pending). -/
def cMidUnit : NotebookQueueUnit := ⟨"A", "c1", [cRange2], false, .ok "opts"⟩

/-- Concrete scenario: document A executing c1, one range already
submitted and the context connected. -/
def cMidState : NotebookQueue :=
  ⟨"client", [cDocA], some cMidUnit, some ⟨"A", "c1", "opts", 640, 80, true⟩⟩

/-- Concrete scenario: a queue with a single non-complete document about to
undergo unit selection. -/
def cSelState : NotebookQueue := ⟨"client", [cDocB], none, none⟩

lemma updateQueueList_no_match (pUnit : NotebookQueueUnit) (op : QueueOperation)
    (before : String) (qs : List NotebookDocQueue)
    (h : ∀ dq ∈ qs, dq.docId ≠ pUnit.docId) :
    updateQueueList pUnit op before qs = qs := by
  induction qs with
  | nil => rfl
  | cons q rest ih =>
      have hq : q.docId ≠ pUnit.docId := h q (by simp)
      simp only [updateQueueList]
      rw [if_neg (by simpa using hq)]
      rw [ih fun dq hdq => h dq (by simp [hdq])]

/-- C10: a new-document request whose document object fails to convert into
a `NotebookDocQueue` returns that error and leaves global state unchanged —
no global queue is created if none existed, nothing is appended to an
existing one, no advance step runs, and nothing is emitted. -/
theorem C10_doc_convert_error_no_effect (cid e : String) (rBusy : Bool)
    (s : Option NotebookQueue) :
    executeNotebookChunks ⟨cid, .error e⟩ rBusy s = ⟨some e, s, []⟩ := rfl

/-- C9: when no global queue instance exists, a mutation request whose
parameters and unit JSON parse successfully returns success and has no
effect on any state, emitting nothing. -/
theorem C9_no_queue_update_benign (opn : Nat) (before : String)
    (pUnit : NotebookQueueUnit) :
    updateExecQueue ⟨.ok (opn, before), .ok pUnit⟩ none = ⟨none, none, []⟩ := rfl

/-- C8: `process` with an empty document list, or while R is busy, returns
success, changes no state and emits nothing; consequently any number of
repeated calls under the same conditions also perform no transition. -/
theorem C8_process_noop_idempotent (rBusy : Bool) (st : NotebookQueue)
    (h : st.queue.isEmpty = true ∨ rBusy = true) :
    st.process rBusy = ⟨none, st, []⟩ ∧
      ∀ n : Nat, processIter rBusy st n = ⟨none, st, []⟩ := by
  have hstep : st.process rBusy = ⟨none, st, []⟩ := by
    rcases h with h | h
    · simp [NotebookQueue.process, h]
    · by_cases he : st.queue.isEmpty <;> simp [NotebookQueue.process, h, he]
  refine ⟨hstep, ?_⟩
  intro n
  induction n with
  | zero => rfl
  | succ n ih => simp [processIter, hstep, ih]

/-- C8 witness: the no-op behaviour at a concrete busy-console state. -/
theorem C8_process_noop_idempotent_witness :
    cStuckState.process true = ⟨none, cStuckState, []⟩ ∧
      processIter true cStuckState 3 = ⟨none, cStuckState, []⟩ :=
  ⟨(C8_process_noop_idempotent true cStuckState (Or.inr rfl)).1,
   (C8_process_noop_idempotent true cStuckState (Or.inr rfl)).2 3⟩

/-- C7: an update request targeting a document id with no matching document
queue returns success (for every operation) and leaves the whole queue
state unchanged, both at the member level and at the RPC level. -/
theorem C7_update_missing_doc_noop (st : NotebookQueue)
    (pUnit : NotebookQueueUnit) (opn : Nat) (before : String)
    (h : ∀ dq ∈ st.queue, dq.docId ≠ pUnit.docId) :
    (∀ op : QueueOperation, st.update pUnit op before = st) ∧
      updateExecQueue ⟨.ok (opn, before), .ok pUnit⟩ (some st) =
        ⟨none, some st, []⟩ := by
  have hm : ∀ op : QueueOperation, st.update pUnit op before = st := by
    intro op
    simp [NotebookQueue.update, updateQueueList_no_match pUnit op before st.queue h]
  refine ⟨hm, ?_⟩
  simp [updateExecQueue, hm]

/-- C7 witness: updating a document id absent from a concrete queue. -/
theorem C7_update_missing_doc_noop_witness :
    (∀ op : QueueOperation, cStuckState.update cDelA1 op "x" = cStuckState) ∧
      updateExecQueue ⟨.ok (2, "x"), .ok cDelA1⟩ (some cStuckState) =
        ⟨none, some cStuckState, []⟩ :=
  C7_update_missing_doc_noop cStuckState cDelA1 2 "x" (by decide)

/-- C4: in every state reachable by any interleaving of console prompts,
mutation requests, chunk-execution requests and console-finish events, at
most one unit occupies the currently-executing slot (the slot is a single
nullable pointer in the source, so this holds structurally). -/
theorem C4_at_most_one_executing (acts : List Action) :
    execSlotCount (runActions none acts).1 ≤ 1 := by
  have h : ∀ s : Option NotebookQueue, execSlotCount s ≤ 1 := by
    intro s
    match s with
    | none => exact Nat.zero_le 1
    | some q =>
        match h : q.execUnit with
        | none => simp [execSlotCount, h]
        | some _ => simp [execSlotCount, h]
  exact h _

lemma executeCurrentUnit_no_state_event (st : NotebookQueue)
    (s : ChunkExecState) (d c : String) :
    Output.execStateChanged s d c ∉ st.executeCurrentUnit.out := by
  match h : st.execUnit with
  | none => simp [NotebookQueue.executeCurrentUnit, h]
  | some u => simp [NotebookQueue.executeCurrentUnit, h]

lemma executeNextUnit_no_finished (st : NotebookQueue) (d c : String) :
    Output.execStateChanged .chunkExecFinished d c ∉ st.executeNextUnit.out := by
  match hq : st.queue with
  | [] => simp [NotebookQueue.executeNextUnit, hq]
  | dq :: rest =>
      by_cases hc : dq.complete
      · simp [NotebookQueue.executeNextUnit, hq, hc]
      · match hu : dq.units with
        | [] => simp [NotebookQueue.executeNextUnit, hq, hc, hu]
        | v :: vs =>
            match hp : v.parseOptions with
            | .error e => simp [NotebookQueue.executeNextUnit, hq, hc, hu, hp]
            | .ok opts =>
                simp [NotebookQueue.executeNextUnit, hq, hc, hu, hp,
                  NotebookQueue.executeCurrentUnit]

/-- C6: when the first unit of the front document queue has malformed
execution options, unit selection returns the parse error to its caller
and the whole state is unchanged — the unit remains queued, no execution
context is created, no chunk-started (or any other) notification is
emitted; the same holds for the `process` step that performs the
selection. -/
theorem C6_option_parse_error_stalls (st : NotebookQueue)
    (dq : NotebookDocQueue) (rest : List NotebookDocQueue)
    (v : NotebookQueueUnit) (vs : List NotebookQueueUnit) (e : String)
    (hq : st.queue = dq :: rest) (hu : dq.units = v :: vs)
    (hexec : st.execUnit = none) (hparse : v.parseOptions = .error e) :
    st.executeNextUnit = ⟨some e, st, []⟩ ∧
      st.process false = ⟨some e, st, []⟩ := by
  have hc : dq.complete = false := by
    simp [NotebookDocQueue.complete, hu]
  have hnext : st.executeNextUnit = ⟨some e, st, []⟩ := by
    simp [NotebookQueue.executeNextUnit, hq, hc, hu, hparse]
  refine ⟨hnext, ?_⟩
  simp [NotebookQueue.process, hq, hexec, hnext]

/-- C6 witness: selecting a concrete malformed unit. -/
theorem C6_option_parse_error_stalls_witness :
    cBadState.executeNextUnit = ⟨some "bad options", cBadState, []⟩ ∧
      cBadState.process false = ⟨some "bad options", cBadState, []⟩ :=
  C6_option_parse_error_stalls cBadState cDocC [] cBadUnit [] "bad options"
    rfl rfl rfl rfl

/-- C3: the `process` step emits a chunk-finished notification only for the
currently-executing unit and only when that unit's completion predicate
already holds — its range sequence is exhausted (all ranges submitted) and
the console has signaled evaluation-finished for the last submitted range;
range exhaustion alone does not suffice. -/
theorem C3_finished_requires_completion (rBusy : Bool) (st : NotebookQueue)
    (d c : String)
    (hmem : Output.execStateChanged .chunkExecFinished d c ∈
      (st.process rBusy).out) :
    ∃ u, st.execUnit = some u ∧ u.docId = d ∧ u.chunkId = c ∧
      u.ranges.isEmpty = true ∧ u.finishedLast = true := by
  by_cases he : st.queue.isEmpty
  · simp [NotebookQueue.process, he] at hmem
  · by_cases hb : rBusy
    · simp [NotebookQueue.process, he, hb] at hmem
    · match hu : st.execUnit with
      | none =>
          simp only [NotebookQueue.process, he, hb, hu, if_false,
            Bool.false_eq_true, ite_false] at hmem
          exact absurd hmem (executeNextUnit_no_finished st d c)
      | some u =>
          by_cases hcomp : u.complete
          · simp only [NotebookQueue.process, he, hb, hu, hcomp, if_true,
              Bool.false_eq_true, ite_false, ite_true, List.mem_cons,
              Output.execStateChanged.injEq, true_and] at hmem
            rcases hmem with ⟨h1, h2⟩ | hmem
            · have hcc := hcomp
              simp only [NotebookQueueUnit.complete, Bool.and_eq_true] at hcc
              exact ⟨u, rfl, h1.symm, h2.symm, hcc.1, hcc.2⟩
            · exact absurd hmem (executeNextUnit_no_finished _ d c)
          · simp only [NotebookQueue.process, he, hb, hu, hcomp, if_false,
              Bool.false_eq_true, ite_false] at hmem
            exact absurd hmem (executeCurrentUnit_no_state_event st _ d c)

/-- C3 witness: a finished notification at a concrete completed unit. -/
theorem C3_finished_requires_completion_witness :
    (Output.execStateChanged .chunkExecFinished "A" "c1" ∈
        (cDoneState.process false).out) ∧
      ∃ u, cDoneState.execUnit = some u ∧ u.docId = "A" ∧ u.chunkId = "c1" ∧
        u.ranges.isEmpty = true ∧ u.finishedLast = true :=
  ⟨by decide, C3_finished_requires_completion false cDoneState "A" "c1" (by decide)⟩

/-- C5 counterexample: a reachable state with a complete document queue at
the front of a non-empty global queue and a non-complete document queue
behind it — the advance step performs selection (no unit is executing) but
selects nothing, emits nothing and changes nothing: complete document
queues at the front are not skipped. -/
theorem C5_counterexample :
    (runActions none
        [Action.execChunks ⟨"client", Except.ok cDocEmpty⟩ true,
         Action.execChunks ⟨"client", Except.ok cDocB⟩ true]).1 = some cStuckState ∧
      cStuckState.queue.isEmpty = false ∧
      cStuckState.execUnit = none ∧
      cStuckState.queue.head?.map NotebookDocQueue.complete = some true ∧
      (cStuckState.queue.drop 1).head?.map NotebookDocQueue.complete = some false ∧
      cStuckState.process false = ⟨none, cStuckState, []⟩ := by
  decide

/-- C5 (amended): selection looks only at the first document queue — when
it is complete no selection occurs and the step is a no-op; when it is not,
its first unit (with well-formed options) is selected, a connected
execution context is constructed for it, chunk-started is emitted, and the
first submission happens in the same step. -/
theorem C5_selection_first_doc_only (st : NotebookQueue)
    (dq : NotebookDocQueue) (rest : List NotebookDocQueue)
    (hq : st.queue = dq :: rest) (hexec : st.execUnit = none) :
    (dq.complete = true → st.process false = ⟨none, st, []⟩) ∧
      (∀ v vs opts, dq.units = v :: vs → v.parseOptions = .ok opts →
        st.process false =
          ⟨none,
           { st with execUnit := some v.popExecRange.1,
                     execContext := some ⟨v.docId, v.chunkId, opts,
                       dq.pixelWidth, dq.charWidth, true⟩ },
           [Output.execStateChanged .chunkExecStarted v.docId v.chunkId,
            Output.consoleInput v.docId v.chunkId v.popExecRange.2,
            Output.rangeExecuted v.docId v.chunkId v.popExecRange.2]⟩) := by
  constructor
  · intro hc
    simp [NotebookQueue.process, NotebookQueue.executeNextUnit, hq, hexec, hc]
  · intro v vs opts hu hp
    have hc : dq.complete = false := by
      simp [NotebookDocQueue.complete, hu]
    simp [NotebookQueue.process, NotebookQueue.executeNextUnit,
      NotebookQueue.executeCurrentUnit, hq, hexec, hc, hu, hp]

/-- C5 witness: selecting the first unit of a concrete single-document
queue. -/
theorem C5_selection_first_doc_only_witness :
    cSelState.process false =
      ⟨none,
       { cSelState with execUnit := some cUnitB1.popExecRange.1,
                        execContext := some ⟨cUnitB1.docId, cUnitB1.chunkId,
                          "opts", cDocB.pixelWidth, cDocB.charWidth, true⟩ },
       [Output.execStateChanged .chunkExecStarted cUnitB1.docId cUnitB1.chunkId,
        Output.consoleInput cUnitB1.docId cUnitB1.chunkId cUnitB1.popExecRange.2,
        Output.rangeExecuted cUnitB1.docId cUnitB1.chunkId cUnitB1.popExecRange.2]⟩ :=
  (C5_selection_first_doc_only cSelState cDocB [] rfl rfl).2
    cUnitB1 [] "opts" rfl rfl

/-- C1 counterexample: document A's unit c1 is begun and then deleted by an
update request while executing; afterwards the very next advance step still
submits another range of c1 to the console, the execution context is still
connected (not released), and when c1's completion predicate later holds, a
chunk-finished notification IS emitted for it. -/
theorem C1_counterexample :
    (Output.consoleInput "A" "c1" cRange2 ∈
        (stepAction (runActions none cDeleteActs).1 (.prompt false)).2) ∧
      ((runActions none cDeleteActs).1.map fun q =>
          q.execContext.map ChunkExecContext.connected) = some (some true) ∧
      (Output.execStateChanged .chunkExecFinished "A" "c1" ∈
        (runActions none
          (cDeleteActs ++ [.prompt false, .consoleFinish, .prompt false])).2) := by
  decide

/-- C1 (amended): an update request — including one that deletes the
currently-executing unit — never cancels it: the executing slot and the
execution context are untouched (the context is not released), a
subsequent advance step still submits the unit's next range while it is
incomplete, and once its completion predicate holds the advance step emits
the chunk-finished notification for it. -/
theorem C1_delete_does_not_cancel (st : NotebookQueue)
    (pUnit : NotebookQueueUnit) (op : QueueOperation) (before : String)
    (u : NotebookQueueUnit) (hexec : st.execUnit = some u) :
    ((st.update pUnit op before).execUnit = some u ∧
      (st.update pUnit op before).execContext = st.execContext) ∧
      (u.complete = false → (st.update pUnit op before).queue.isEmpty = false →
        (st.update pUnit op before).process false =
          ⟨none,
           { st.update pUnit op before with execUnit := some u.popExecRange.1 },
           [Output.consoleInput u.docId u.chunkId u.popExecRange.2,
            Output.rangeExecuted u.docId u.chunkId u.popExecRange.2]⟩) ∧
      (u.complete = true → (st.update pUnit op before).queue.isEmpty = false →
        ((st.update pUnit op before).process false).out.head? =
          some (Output.execStateChanged .chunkExecFinished u.docId u.chunkId)) := by
  refine ⟨⟨by simp [NotebookQueue.update, hexec], by simp [NotebookQueue.update]⟩, ?_, ?_⟩
  · intro hcomp hne
    have hx : (st.update pUnit op before).execUnit = some u := by
      simp [NotebookQueue.update, hexec]
    simp [NotebookQueue.process, NotebookQueue.executeCurrentUnit, hx, hne, hcomp]
  · intro hcomp hne
    have hx : (st.update pUnit op before).execUnit = some u := by
      simp [NotebookQueue.update, hexec]
    simp [NotebookQueue.process, hx, hne, hcomp]

lemma startedKeys_append (a b : List Output) :
    startedKeys (a ++ b) = startedKeys a ++ startedKeys b :=
  List.filterMap_append a b _

lemma queueKeys_cons (dq : NotebookDocQueue) (rest : List NotebookDocQueue) :
    queueKeys (dq :: rest) = docKeys dq ++ queueKeys rest := by
  simp [queueKeys]

lemma popExecRange_key (u : NotebookQueueUnit) :
    unitKey u.popExecRange.1 = unitKey u := by
  cases h : u.ranges <;> simp [NotebookQueueUnit.popExecRange, h, unitKey]

lemma pendingKeys_none {s : NotebookQueue} (h : s.execUnit = none) :
    pendingKeys s = queueKeys s.queue := by
  simp [pendingKeys, h]

lemma pendingKeys_some {s : NotebookQueue} {u : NotebookQueueUnit}
    (h : s.execUnit = some u) :
    pendingKeys s = (queueKeys s.queue).tail := by
  simp [pendingKeys, h]

lemma startedKeys_executeCurrentUnit (st : NotebookQueue) :
    startedKeys st.executeCurrentUnit.out = [] := by
  cases h : st.execUnit <;>
    simp [NotebookQueue.executeCurrentUnit, h, startedKeys]

lemma executeCurrentUnit_queue (st : NotebookQueue) :
    st.executeCurrentUnit.state.queue = st.queue := by
  cases h : st.execUnit <;> simp [NotebookQueue.executeCurrentUnit, h]

lemma orderInv_executeCurrentUnit (st : NotebookQueue)
    (done orig : List (String × String)) (hinv : OrderInv st done orig) :
    OrderInv st.executeCurrentUnit.state
      (done ++ startedKeys st.executeCurrentUnit.out) orig := by
  obtain ⟨hnd, hhead, hpend⟩ := hinv
  rw [startedKeys_executeCurrentUnit, List.append_nil]
  cases h : st.execUnit with
  | none =>
      simp only [NotebookQueue.executeCurrentUnit, h]
      exact ⟨hnd, hhead, hpend⟩
  | some u =>
      refine ⟨?_, ?_, ?_⟩
      · intro dq hdq
        exact hnd dq (by rwa [executeCurrentUnit_queue] at hdq)
      · intro u' hu'
        rw [show st.executeCurrentUnit.state.execUnit = some u.popExecRange.1 by
          simp [NotebookQueue.executeCurrentUnit, h]] at hu'
        obtain ⟨dq, rest, hq, v, vs, hvs, hkey⟩ := hhead u h
        have huu : u' = u.popExecRange.1 := by injection hu' with h2; exact h2.symm
        exact ⟨dq, rest, by rw [executeCurrentUnit_queue]; exact hq, v, vs, hvs,
          by rw [hkey, huu, popExecRange_key]⟩
      · have hse : st.executeCurrentUnit.state.execUnit = some u.popExecRange.1 := by
          simp [NotebookQueue.executeCurrentUnit, h]
        rw [pendingKeys_some hse, executeCurrentUnit_queue, ← pendingKeys_some h]
        exact hpend

lemma executeNextUnit_select (st : NotebookQueue) (dq : NotebookDocQueue)
    (rest : List NotebookDocQueue) (v : NotebookQueueUnit)
    (vs : List NotebookQueueUnit) (opts : String)
    (hq : st.queue = dq :: rest) (hu : dq.units = v :: vs)
    (hp : v.parseOptions = .ok opts) :
    st.executeNextUnit =
      ⟨none,
       { st with execUnit := some v.popExecRange.1,
                 execContext := some ⟨v.docId, v.chunkId, opts,
                   dq.pixelWidth, dq.charWidth, true⟩ },
       [Output.execStateChanged .chunkExecStarted v.docId v.chunkId,
        Output.consoleInput v.docId v.chunkId v.popExecRange.2,
        Output.rangeExecuted v.docId v.chunkId v.popExecRange.2]⟩ := by
  have hc : dq.complete = false := by
    simp [NotebookDocQueue.complete, hu]
  simp [NotebookQueue.executeNextUnit, NotebookQueue.executeCurrentUnit,
    hq, hc, hu, hp]

lemma orderInv_executeNextUnit (st : NotebookQueue)
    (done orig : List (String × String)) (hexec : st.execUnit = none)
    (hinv : OrderInv st done orig) :
    OrderInv st.executeNextUnit.state
      (done ++ startedKeys st.executeNextUnit.out) orig := by
  obtain ⟨hnd, hhead, hpend⟩ := hinv
  match hq : st.queue with
  | [] =>
      simp only [NotebookQueue.executeNextUnit, hq, startedKeys,
        List.filterMap_nil, List.append_nil]
      exact ⟨hnd, hhead, hpend⟩
  | dq :: rest =>
      by_cases hc : dq.complete
      · simp only [NotebookQueue.executeNextUnit, hq, hc, if_true,
          startedKeys, List.filterMap_nil, List.append_nil]
        exact ⟨hnd, hhead, hpend⟩
      · match hu : dq.units with
        | [] => exact absurd (by simp [NotebookDocQueue.complete, hu]) hc
        | v :: vs =>
            match hp : v.parseOptions with
            | .error e =>
                have hcf : dq.complete = false := by
                  simp [NotebookDocQueue.complete, hu]
                simp only [NotebookQueue.executeNextUnit, hq, hcf, hu, hp,
                  Bool.false_eq_true, if_false, startedKeys,
                  List.filterMap_nil, List.append_nil]
                exact ⟨hnd, hhead, hpend⟩
            | .ok opts =>
                have hsel := executeNextUnit_select st dq rest v vs opts hq hu hp
                have hst : st.executeNextUnit.state =
                    { st with execUnit := some v.popExecRange.1,
                              execContext := some ⟨v.docId, v.chunkId, opts,
                                dq.pixelWidth, dq.charWidth, true⟩ } := by
                  rw [hsel]
                have hout : st.executeNextUnit.out =
                    [Output.execStateChanged .chunkExecStarted v.docId v.chunkId,
                     Output.consoleInput v.docId v.chunkId v.popExecRange.2,
                     Output.rangeExecuted v.docId v.chunkId v.popExecRange.2] := by
                  rw [hsel]
                rw [hst, hout]
                refine ⟨?_, ?_, ?_⟩
                · intro dq' hdq'
                  exact hnd dq' hdq'
                · intro u' hu'
                  have hvv : v.popExecRange.1 = u' := by simpa using hu'
                  exact ⟨dq, rest, hq, v, vs, hu,
                    by rw [← hvv, popExecRange_key]⟩
                · have hpk : pendingKeys
                      { st with execUnit := some v.popExecRange.1,
                                execContext := some ⟨v.docId, v.chunkId, opts,
                                  dq.pixelWidth, dq.charWidth, true⟩ } =
                      (queueKeys st.queue).tail := rfl
                  rw [hpk, hq, queueKeys_cons]
                  rw [pendingKeys_none hexec, hq, queueKeys_cons] at hpend
                  rw [show docKeys dq = unitKey v :: List.map unitKey vs by
                    simp [docKeys, hu]] at hpend ⊢
                  rw [← hpend]
                  simp [unitKey, startedKeys]

lemma update_delete_head (dq : NotebookDocQueue) (u v : NotebookQueueUnit)
    (vs : List NotebookQueueUnit) (hu : dq.units = v :: vs)
    (hnd : (docKeys dq).Nodup) (hkey : unitKey v = unitKey u) :
    (dq.update u .queueDelete "").units = vs := by
  have hdoc : v.docId = u.docId := congrArg Prod.fst hkey
  have hchunk : v.chunkId = u.chunkId := congrArg Prod.snd hkey
  have hnotin : unitKey v ∉ vs.map unitKey := by
    rw [show docKeys dq = unitKey v :: vs.map unitKey by simp [docKeys, hu]] at hnd
    exact (List.nodup_cons.mp hnd).1
  simp only [NotebookDocQueue.update, hu, List.filter_cons]
  rw [if_neg (by simp [hdoc, hchunk])]
  apply List.filter_eq_self.mpr
  intro w hw
  have hwk : unitKey w ≠ unitKey u := by
    intro hcon
    exact hnotin (by rw [hkey, ← hcon]; exact List.mem_map_of_mem unitKey hw)
  by_cases h1 : w.docId = u.docId
  · by_cases h2c : w.chunkId = u.chunkId
    · exact absurd (by simp [unitKey, h1, h2c]) hwk
    · simp [h2c]
  · simp [h1]

lemma process_complete_eq (rBusy : Bool) (st : NotebookQueue)
    (u : NotebookQueueUnit) (dq : NotebookDocQueue)
    (rest : List NotebookDocQueue) (hq : st.queue = dq :: rest)
    (hb : rBusy = false) (hexec : st.execUnit = some u)
    (hcomp : u.complete = true) :
    st.process rBusy =
      ⟨(NotebookQueue.mk st.clientId
          (if (dq.update u .queueDelete "").complete then rest
           else dq.update u .queueDelete "" :: rest) none
          (st.execContext.map ChunkExecContext.disconnect)).executeNextUnit.err,
       (NotebookQueue.mk st.clientId
          (if (dq.update u .queueDelete "").complete then rest
           else dq.update u .queueDelete "" :: rest) none
          (st.execContext.map ChunkExecContext.disconnect)).executeNextUnit.state,
       Output.execStateChanged .chunkExecFinished u.docId u.chunkId ::
         (NotebookQueue.mk st.clientId
            (if (dq.update u .queueDelete "").complete then rest
             else dq.update u .queueDelete "" :: rest) none
            (st.execContext.map ChunkExecContext.disconnect)).executeNextUnit.out⟩ := by
  subst hb
  by_cases h2 : (dq.update u .queueDelete "").complete
  · simp [NotebookQueue.process, hq, hexec, hcomp, h2]
  · simp [NotebookQueue.process, hq, hexec, hcomp, h2]

lemma orderInv_process (rBusy : Bool) (st : NotebookQueue)
    (done orig : List (String × String)) (hinv : OrderInv st done orig) :
    OrderInv (st.process rBusy).state
      (done ++ startedKeys (st.process rBusy).out) orig := by
  by_cases he : st.queue.isEmpty
  · simp only [NotebookQueue.process, he, if_true, startedKeys,
      List.filterMap_nil, List.append_nil]
    exact hinv
  · by_cases hb : rBusy
    · simp only [NotebookQueue.process, he, hb, Bool.false_eq_true, if_false,
        if_true, startedKeys, List.filterMap_nil, List.append_nil]
      exact hinv
    · have hb' : rBusy = false := by simpa using hb
      match hexec : st.execUnit with
      | none =>
          have hpr : st.process rBusy = st.executeNextUnit := by
            subst hb'
            simp [NotebookQueue.process, he, hexec]
          rw [hpr]
          exact orderInv_executeNextUnit st done orig hexec hinv
      | some u =>
          by_cases hcomp : u.complete
          · obtain ⟨hnd, hhead, hpend⟩ := hinv
            obtain ⟨dq, rest, hq, v, vs, hu, hkey⟩ := hhead u hexec
            have hdel : (dq.update u .queueDelete "").units = vs :=
              update_delete_head dq u v vs hu (hnd dq (by simp [hq])) hkey
            have hpr := process_complete_eq rBusy st u dq rest hq hb' hexec hcomp
            rw [hpr]
            have hinv2 : OrderInv
                (NotebookQueue.mk st.clientId
                  (if (dq.update u .queueDelete "").complete then rest
                   else dq.update u .queueDelete "" :: rest) none
                  (st.execContext.map ChunkExecContext.disconnect)) done orig := by
              refine ⟨?_, ?_, ?_⟩
              · intro dq' hdq'
                by_cases h2 : (dq.update u .queueDelete "").complete
                · rw [if_pos h2] at hdq'
                  exact hnd dq' (by simp [hq, hdq'])
                · rw [if_neg h2] at hdq'
                  rcases List.mem_cons.mp hdq' with h3 | h3
                  · subst h3
                    have hnd2 : (docKeys dq).Nodup := hnd dq (by simp [hq])
                    rw [show docKeys dq = unitKey v :: vs.map unitKey by
                      simp [docKeys, hu]] at hnd2
                    rw [show docKeys (dq.update u .queueDelete "") =
                      vs.map unitKey by simp [docKeys, hdel]]
                    exact (List.nodup_cons.mp hnd2).2
                  · exact hnd dq' (by simp [hq, h3])
              · intro u' hu'
                exact absurd hu' (by simp)
              · rw [pendingKeys_some hexec, hq, queueKeys_cons] at hpend
                rw [show docKeys dq = unitKey v :: vs.map unitKey by
                  simp [docKeys, hu]] at hpend
                rw [pendingKeys_none rfl]
                by_cases h2 : (dq.update u .queueDelete "").complete
                · have hvs : vs = [] := by
                    have := h2
                    rw [NotebookDocQueue.complete, hdel] at this
                    simpa using this
                  rw [if_pos h2]
                  subst hvs
                  simpa using hpend
                · have hvs : vs ≠ [] := by
                    intro hcon
                    rw [NotebookDocQueue.complete, hdel, hcon] at h2
                    exact h2 rfl
                  rw [if_neg h2, queueKeys_cons]
                  rw [show docKeys (dq.update u .queueDelete "") =
                    vs.map unitKey by simp [docKeys, hdel]]
                  simpa using hpend
            have := orderInv_executeNextUnit _ done orig rfl hinv2
            refine ⟨?_, ?_, ?_⟩
            · exact this.1
            · exact this.2.1
            · rw [show startedKeys
                  (Output.execStateChanged .chunkExecFinished u.docId u.chunkId ::
                    (NotebookQueue.mk st.clientId
                      (if (dq.update u .queueDelete "").complete then rest
                       else dq.update u .queueDelete "" :: rest) none
                      (st.execContext.map ChunkExecContext.disconnect)).executeNextUnit.out) =
                  startedKeys
                    (NotebookQueue.mk st.clientId
                      (if (dq.update u .queueDelete "").complete then rest
                       else dq.update u .queueDelete "" :: rest) none
                      (st.execContext.map ChunkExecContext.disconnect)).executeNextUnit.out by
                simp [startedKeys]]
              exact this.2.2
          · have hpr : st.process rBusy = st.executeCurrentUnit := by
              subst hb'
              have hcf : u.complete = false := by simpa using hcomp
              simp [NotebookQueue.process, he, hexec, hcf]
            rw [hpr]
            exact orderInv_executeCurrentUnit st done orig hinv

lemma orderInv_consoleFinish (st : NotebookQueue)
    (done orig : List (String × String)) (hinv : OrderInv st done orig) :
    OrderInv st.consoleFinish done orig := by
  obtain ⟨hnd, hhead, hpend⟩ := hinv
  refine ⟨?_, ?_, ?_⟩
  · intro dq hdq
    exact hnd dq (by simpa [NotebookQueue.consoleFinish] using hdq)
  · intro u' hu'
    match h : st.execUnit with
    | none =>
        rw [show st.consoleFinish.execUnit = none by
          simp [NotebookQueue.consoleFinish, h]] at hu'
        exact absurd hu' (by simp)
    | some u =>
        obtain ⟨dq, rest, hq, v, vs, hvs, hkey⟩ := hhead u h
        rw [show st.consoleFinish.execUnit = some { u with finishedLast := true } by
          simp [NotebookQueue.consoleFinish, h]] at hu'
        have huu : u' = { u with finishedLast := true } := by
          injection hu' with h2; exact h2.symm
        exact ⟨dq, rest, hq, v, vs, hvs, by rw [huu]; exact hkey⟩
  · match h : st.execUnit with
    | none =>
        rw [pendingKeys_none (show st.consoleFinish.execUnit = none by
          simp [NotebookQueue.consoleFinish, h])]
        rw [pendingKeys_none h] at hpend
        exact hpend
    | some u =>
        rw [pendingKeys_some (show st.consoleFinish.execUnit =
          some { u with finishedLast := true } by
          simp [NotebookQueue.consoleFinish, h])]
        rw [pendingKeys_some h] at hpend
        exact hpend

lemma orderInv_runAdvance (evts : List AdvanceEvt) (st : NotebookQueue)
    (done orig : List (String × String)) (hinv : OrderInv st done orig) :
    OrderInv (runAdvance st evts).1
      (done ++ startedKeys (runAdvance st evts).2) orig := by
  induction evts generalizing st done with
  | nil =>
      simpa [runAdvance, startedKeys] using hinv
  | cons e es ih =>
      match e with
      | .prompt rBusy =>
          have h1 := orderInv_process rBusy st done orig hinv
          have h2 := ih (st.process rBusy).state
            (done ++ startedKeys (st.process rBusy).out) h1
          simpa [runAdvance, stepAdvance, startedKeys_append,
            List.append_assoc] using h2
      | .consoleFinish =>
          have h1 := orderInv_consoleFinish st done orig hinv
          have h2 := ih st.consoleFinish done h1
          simpa [runAdvance, stepAdvance, startedKeys] using h2

lemma foldl_add_queue (docs : List NotebookDocQueue) (st : NotebookQueue) :
    docs.foldl NotebookQueue.add st =
      { st with queue := st.queue ++ docs } := by
  induction docs generalizing st with
  | nil => simp
  | cons d ds ih =>
      rw [List.foldl_cons, ih]
      simp [NotebookQueue.add]

/-- C2: for every sequence of `add` calls on a fresh queue followed by any
sequence of console idle signals and console-finish events (no mutation
requests), the identities for which chunk-started is emitted form — in
emission order — a prefix of the queued identities taken in document-add
order and, within each document, in the supplied unit order (assuming the
spec's invariant that chunk identities are unique within a document). -/
theorem C2_execution_order (cid : String) (docs : List NotebookDocQueue)
    (evts : List AdvanceEvt)
    (hnd : ∀ dq ∈ docs, (docKeys dq).Nodup) :
    ∃ rest,
      startedKeys
          (runAdvance (docs.foldl NotebookQueue.add ⟨cid, [], none, none⟩) evts).2
        ++ rest = queueKeys docs := by
  have h0 : docs.foldl NotebookQueue.add ⟨cid, [], none, none⟩ =
      ⟨cid, docs, none, none⟩ := by
    rw [foldl_add_queue]
    simp
  have hinv : OrderInv (⟨cid, docs, none, none⟩ : NotebookQueue) []
      (queueKeys docs) := by
    refine ⟨hnd, ?_, ?_⟩
    · intro u hu
      exact absurd hu (by simp)
    · rw [pendingKeys_none rfl]
      simp
  have hrun := orderInv_runAdvance evts ⟨cid, docs, none, none⟩ [] (queueKeys docs) hinv
  rw [h0]
  exact ⟨pendingKeys (runAdvance (⟨cid, docs, none, none⟩ : NotebookQueue) evts).1,
    by simpa using hrun.2.2⟩

/-- C2 witness: adding documents A (chunks c1) and B (chunk c2) and driving
the queue to completion starts the chunks in add/supply order. -/
theorem C2_execution_order_witness :
    (∀ dq ∈ [cDocA, cDocB], (docKeys dq).Nodup) ∧
      ∃ rest,
        startedKeys
            (runAdvance
              ([cDocA, cDocB].foldl NotebookQueue.add ⟨"client", [], none, none⟩)
              [.prompt false, .consoleFinish, .prompt false, .consoleFinish,
               .prompt false, .consoleFinish, .prompt false]).2
          ++ rest = queueKeys [cDocA, cDocB] :=
  ⟨by decide,
   C2_execution_order "client" [cDocA, cDocB]
     [.prompt false, .consoleFinish, .prompt false, .consoleFinish,
      .prompt false, .consoleFinish, .prompt false] (by decide)⟩

/-- C1 witness: the non-cancellation behaviour at a concrete mid-execution
state whose executing unit is deleted. -/
theorem C1_delete_does_not_cancel_witness :
    ((cMidState.update cDelA1 .queueDelete "").execUnit = some cMidUnit ∧
      (cMidState.update cDelA1 .queueDelete "").execContext = cMidState.execContext) ∧
      (cMidState.update cDelA1 .queueDelete "").process false =
        ⟨none,
         { cMidState.update cDelA1 .queueDelete "" with
             execUnit := some cMidUnit.popExecRange.1 },
         [Output.consoleInput cMidUnit.docId cMidUnit.chunkId cMidUnit.popExecRange.2,
          Output.rangeExecuted cMidUnit.docId cMidUnit.chunkId cMidUnit.popExecRange.2]⟩ :=
  ⟨(C1_delete_does_not_cancel cMidState cDelA1 .queueDelete "" cMidUnit rfl).1,
   (C1_delete_does_not_cancel cMidState cDelA1 .queueDelete "" cMidUnit rfl).2.1
     (by decide) (by decide)⟩

end RmdNotebook
